import Mathlib

/-!
Verification of the csv-reader accessor (src/src/lib.rs) against its
specification.

The embedding models a CSV file as the list of bytes of its content
(`List Nat`).  The external record tokenizer (the `csv` crate) is modelled
functionally at the level the accessor observes it:

* a record is a maximal nonempty line (blank lines are skipped, as the
  tokenizer does);
* fields are the comma-separated pieces of a line (quoting/escaping is the
  tokenizer's business and out of scope per the spec, so modelled files
  contain no quotes);
* a reader built without `.flexible(true)` yields an error for any record
  whose field count differs from that of the first record it read
  (`UnequalLengths`); flexible readers accept any field count;
* `Reader::headers()` returns the first record of the stream regardless of
  the `has_headers` flag; the flag only decides whether `records()` yields
  that first record again as data;
* the tokenizer's parse position advances per record by exactly the bytes
  of its line, its terminator, and any blank lines before it; but the byte
  positions the accessor observes through its outer reader advance in full
  read-ahead chunks of the tokenizer's 8 KiB internal buffer, capped at end
  of file (`pulledBytes`) — so the estimator's `end_pos - start_pos` is the
  pulled span, not the bytes of the parsed records.

Machine integers (`usize`, `u64`) stay in `Nat`: every quantity involved is
nonnegative and far below 2^64, so no wrap-around can occur.  The `f64`
arithmetic of the seek path is modelled exactly, as rational arithmetic;
`max(x, 0.0)` followed by `as u64` truncation becomes saturating `Nat`
subtraction followed by `Nat` division.
-/

/-- Byte of a file; newline (10) terminates records, comma (44) separates
fields. -/
abbrev Byte := Nat

deriving instance DecidableEq for Except

def nlByte : Byte := 10

def commaByte : Byte := 44

/-- Records of a byte stream as the tokenizer yields them: the nonempty
lines, in order (blank lines are skipped). -/
def recLines (bs : List Byte) : List (List Byte) :=
  (bs.splitOn nlByte).filter (fun l => !l.isEmpty)

/-- Fields of one record: the comma-separated pieces of its line. -/
def fieldsOf (l : List Byte) : List (List Byte) :=
  l.splitOn commaByte

/-- A Row as built by the source: a key/value mapping from header text to
field text, in insertion order.  Each loop iteration sets
`row[headers[i]] = field` for `i < headers.len()`, i.e. the positional zip
of the header fields with the record fields, truncated at the shorter. -/
abbrev Row := List (List Byte × List Byte)

/-- Row construction of the source loops (`for (i, field) in record`,
guarded by `i < headers.len()`). -/
def mkRow (headers fs : List (List Byte)) : Row :=
  headers.zip fs

/-- Rows built for a whole list of records against one header set. -/
def buildRows (headers : List (List Byte)) (ls : List (List Byte)) : List Row :=
  ls.map (fun l => mkRow headers (fieldsOf l))

/-- The accessor struct `CSVParser`.  `content` stands for the bytes of the
file at `filename`; `file_size` is the byte length captured once at
construction (a possibly stale snapshot, hence a separate field). -/
structure CSVParser where
  content : List Byte
  batch_size : Nat
  has_headers : Bool
  file_size : Nat
deriving DecidableEq, Repr

/-- Constructor `CSVParser::new`: fails only when the file cannot be opened
(`file = none`); `batch_size` is stored unvalidated.  Metadata succeeds in
the model, so `file_size` is the content length. -/
def CSVParser.new (file : Option (List Byte)) (batch_size : Nat)
    (has_headers : Option Bool) : Except String CSVParser :=
  match file with
  | none => .error "Failed to open file"
  | some c => .ok ⟨c, batch_size, has_headers.getD true, c.length⟩

/-- Header set a fresh reader reports for the file: the fields of the first
record (`Reader::headers()` returns the first record whatever the flag). -/
def headersOf (p : CSVParser) : List (List Byte) :=
  fieldsOf ((recLines p.content).headD [])

/-- Records that `records()` yields as data: all records, minus the first
one exactly when the header flag is set. -/
def dataLines (p : CSVParser) : List (List Byte) :=
  if p.has_headers then (recLines p.content).tail else recLines p.content

/-- Rust integer division: dividing by zero is a panic, not a value. -/
def checkedDiv (a b : Nat) : Option Nat :=
  if b = 0 then none else some (a / b)

/-- Batch-assembly loop shared verbatim by `read` and `read_optimized`:
push each row onto the current batch, flush once it holds `bs` rows, and
flush a final partial batch only when nonempty.  (The source's `count`
variable always equals `current_rows.len()`, which is used directly.) -/
def batchGo (bs : Nat) : List Row → List (List Row) → List Row → List (List Row)
  | [], batches, cur => if cur.isEmpty then batches else batches ++ [cur]
  | r :: rs, batches, cur =>
    let cur2 := cur ++ [r]
    if bs ≤ cur2.length then batchGo bs rs (batches ++ [cur2]) []
    else batchGo bs rs batches cur2

def batchesOf (bs : Nat) (rows : List Row) : List (List Row) :=
  batchGo bs rows [] []

/-- Whole-file strategy `read_optimized` (lines 144-249): read the content,
take the first record as the header set, pre-size the batch vector with
`(content.len() / 50) / batch_size + 1` (an unguarded division: `none`
models the division-by-zero panic), then assemble batches from the data
records.  The reader is flexible, so no record is rejected in the model. -/
def read_optimized (p : CSVParser) : Option (List (List Row)) :=
  match checkedDiv (p.content.length / 50) p.batch_size with
  | none => none
  | some _ => some (batchesOf p.batch_size (buildRows (headersOf p) (dataLines p)))

/-- Streaming strategy: the body of `read` after the size check
(lines 54-140), with its capacity hint
`file_size / (batch_size * 100) + 1` (again an unguarded division). -/
def read_streaming (p : CSVParser) : Option (List (List Row)) :=
  match checkedDiv p.file_size (p.batch_size * 100) with
  | none => none
  | some _ => some (batchesOf p.batch_size (buildRows (headersOf p) (dataLines p)))

/-- Strategy selector of `read` (lines 49-52): whole-file exactly when the
cached size is nonzero and strictly under 100 MiB. -/
def usesWholeFile (file_size : Nat) : Bool :=
  0 < file_size && file_size < 100 * 1024 * 1024

/-- Public `read` (ReadAll): dispatch on file size, then batch. -/
def CSVParser.read (p : CSVParser) : Option (List (List Row)) :=
  if usesWholeFile p.file_size then read_optimized p else read_streaming p

/-- Counting loop of `count_rows`: advance the record iterator to the end,
incrementing only on `Ok`.  A record parses as `Ok` exactly when its field
count equals `expected`, the field count of the first record the reader
saw (the reader is not flexible). -/
def countLoop (expected : Nat) : List (List Byte) → Nat
  | [] => 0
  | l :: ls => (if (fieldsOf l).length = expected then 1 else 0) + countLoop expected ls

/-- `count_rows` (lines 252-286): position past the header when the flag is
set, then count `Ok` records.  Header parsing cannot fail in the model (no
quoting), so the fatal-error branch of lines 269-275 is never taken and the
result is always `Ok`. -/
def count_rows (p : CSVParser) : Except String Nat :=
  .ok (countLoop (headersOf p).length (dataLines p))

/-- One tokenizer step over raw bytes, tracking the tokenizer's internal
parse position for the estimator: skip blank lines, yield the next line,
the number of bytes parsed for it (leading blanks, the line, and its
terminator when present), and the rest of the stream; `none` at end of
input. -/
def nextRecord (bs : List Byte) : Option (List Byte × Nat × List Byte) :=
  let bs2 := bs.dropWhile (· == nlByte)
  if bs2.isEmpty then none
  else
    let r := bs2.takeWhile (· != nlByte)
    let rest0 := bs2.dropWhile (· != nlByte)
    some (r, (bs.takeWhile (· == nlByte)).length + r.length +
      (if rest0.isEmpty then 0 else 1), rest0.drop 1)

/-- Estimator start: consume the header record when the flag is set (fixing
the expected field count), else leave the stream untouched (the expected
count is then fixed by the first sampled record).  Returns the remaining
stream, the bytes consumed so far, and the expected field count. -/
def startState (hh : Bool) (c : List Byte) : List Byte × Nat × Option Nat :=
  if hh then
    match nextRecord c with
    | some (r, cn, rest) => (rest, cn, some (fieldsOf r).length)
    | none => ([], c.length, none)
  else (c, 0, none)

/-- Sampling loop of `estimate_bytes_per_row`: pull up to `k` records,
stopping at end of file, aborting on the first record whose field count
differs from the expected one (the estimator's reader is not flexible).
Returns the sample count and the bytes consumed (at end of file the
trailing blank bytes probed through are consumed as well). -/
def sampleGo : Nat → Option Nat → List Byte → Except String (Nat × Nat)
  | 0, _, _ => .ok (0, 0)
  | k + 1, exp, bs =>
    match nextRecord bs with
    | none => .ok (0, bs.length)
    | some (r, cn, rest) =>
      let fl := (fieldsOf r).length
      match exp with
      | some e =>
        if fl = e then
          match sampleGo k (some e) rest with
          | .ok (c, cn2) => .ok (c + 1, cn + cn2)
          | .error msg => .error msg
        else .error "Error reading sample row"
      | none =>
        match sampleGo k (some fl) rest with
        | .ok (c, cn2) => .ok (c + 1, cn + cn2)
        | .error msg => .error msg

/-- Capacity of the record tokenizer's internal read buffer: the tokenizer
pulls input from the accessor's reader in chunks of this size, so the byte
positions the accessor observes advance per chunk, not per record.  (The
accessor's own 64 KiB buffer is an exact multiple of it, so every pull is a
full chunk until end of file.) -/
def csvBufSize : Nat := 8 * 1024

/-- Length accumulator whose counter is matched on, and hence forced, at
every step, so that kernel evaluation on very long lists stays shallow. -/
def lenGo : Nat → List α → Nat
  | n, [] => n
  | 0, _ :: t => lenGo 1 t
  | n + 1, _ :: t => lenGo (n + 2) t

/-- Length of a list (`len()` of the file's bytes), evaluation-friendly. -/
def listLen (l : List α) : Nat := lenGo 0 l

/-- Bytes the outer reader has yielded to the tokenizer once the tokenizer
has parsed `e` of the file's `len` bytes: the parse position rounded up to
full read-ahead chunks, capped at end of file. -/
def pulledBytes (len e : Nat) : Nat :=
  min len (csvBufSize * ((e + (csvBufSize - 1)) / csvBufSize))

/-- Sampling pass of the estimator over a parser's file: header skip, then
up to 100 sample records.  Yields the sample count and the span
`end_pos - start_pos` the reader observes once sampling ends: the parsed
bytes rounded up to the tokenizer's read-ahead chunks, capped at end of
file. -/
def sampleOutcome (p : CSVParser) : Except String (Nat × Nat) :=
  let (bs0, cn0, exp) := startState p.has_headers p.content
  match sampleGo 100 exp bs0 with
  | .ok (c, cn) => .ok (c, pulledBytes (listLen p.content) (cn0 + cn))
  | .error msg => .error msg

/-- `estimate_bytes_per_row` (lines 575-646): `(end_pos - start_pos) /
row_count` when at least one sample was read, the fixed default `100.0`
otherwise.  The `f64` quotient is modelled as the exact rational. -/
def estimate_bytes_per_row (p : CSVParser) : Except String ℚ :=
  match sampleOutcome p with
  | .error e => .error e
  | .ok (cnt, consumed) =>
    if 0 < cnt then .ok ((consumed : ℚ) / (cnt : ℚ))
    else .ok 100

/-- Reading loop shared by the chunk paths: take up to `n` records,
stopping at end of input, aborting on the first record whose field count
differs from `exp` (with `exp = none`, the first record fixes the expected
count, as for a freshly built non-flexible reader).  Rows are keyed by the
given header set. -/
def takeRows (headers : List (List Byte)) :
    Option Nat → Nat → List (List Byte) → Except String (List Row)
  | _, 0, _ => .ok []
  | _, _ + 1, [] => .ok []
  | exp, n + 1, l :: ls =>
    let fs := fieldsOf l
    match exp with
    | some e =>
      if fs.length = e then
        match takeRows headers (some e) n ls with
        | .ok rows => .ok (mkRow headers fs :: rows)
        | .error msg => .error msg
      else .error "Failed to read CSV record"
    | none =>
      match takeRows headers (some fs.length) n ls with
      | .ok rows => .ok (mkRow headers fs :: rows)
      | .error msg => .error msg

/-- Skip loop of the fallback path (lines 538-544): advance the record
iterator `start_row` times, checking only whether a record was yielded at
all (an `Err` record is consumed and counts as one discarded row); `none`
when end of input is hit first. -/
def skipGo : Nat → List (List Byte) → Option (List (List Byte))
  | 0, ls => some ls
  | _ + 1, [] => none
  | s + 1, _ :: ls => skipGo s ls

/-- Fallback linear path of `read_chunk_optimized` (lines 510-571): read the
header set from the start, discard `start_row` records, returning empty at
early end of file; then take up to `num_rows` records, aborting on a
malformed one.  The expected field count was fixed by the first record
(read by `headers()`). -/
def read_chunk_fallback (p : CSVParser) (start_row num_rows : Nat) :
    Except String (List Row) :=
  match skipGo start_row (dataLines p) with
  | none => .ok []
  | some rest => takeRows (headersOf p) (some (headersOf p).length) num_rows rest

/-- Seek branch body (lines 369-505), entered with the sample data of the
estimator.  The `f64` quantities are carried as an exact fraction
`bnum / bden`: `estimated_pos = bytes_per_row * start_row + header_offset`
equals `bnum * mul / bden`, and
`safe_pos = max(estimated_pos - 2*bytes_per_row, 0) as u64` is the
saturating difference divided by `bden` (floor of a nonnegative value).
After seeking, bytes are consumed up to the next line terminator, and up to
`num_rows` records are read from there by a header-less, non-flexible
reader, keyed by a header set re-read from the start of the file. -/
def seekRead (p : CSVParser) (bnum bden start_row num_rows : Nat) :
    Except String (List Row) :=
  let mul := if p.has_headers then start_row + 1 else start_row
  let safe_pos := (bnum * mul - 2 * bnum) / bden
  let rest := ((p.content.drop safe_pos).dropWhile (· != nlByte)).drop 1
  takeRows (headersOf p) none num_rows (recLines rest)

/-- `read_chunk_optimized` (lines 353-572).  For `start_row > 1000` with a
nonzero cached size, the estimator runs (its error aborts the call); when
its estimate is positive and projects strictly before end of file, the seek
branch is taken, otherwise control falls through to the linear fallback.
The estimator's value `bnum / bden` is carried exactly (default 100 when no
sample was read). -/
def read_chunk_optimized (p : CSVParser) (start_row num_rows : Nat) :
    Except String (List Row) :=
  if 1000 < start_row ∧ 0 < p.file_size then
    match sampleOutcome p with
    | .error e => .error e
    | .ok (cnt, consumed) =>
      let bnum := if cnt = 0 then 100 else consumed
      let bden := if cnt = 0 then 1 else cnt
      if 0 < bnum then
        let mul := if p.has_headers then start_row + 1 else start_row
        if bnum * mul < p.file_size * bden then
          seekRead p bnum bden start_row num_rows
        else read_chunk_fallback p start_row num_rows
      else read_chunk_fallback p start_row num_rows
  else read_chunk_fallback p start_row num_rows

/-- Public `read_chunk` (lines 289-350): for `start_row == 0` with headers
enabled, a plain bounded read from the start; otherwise the optimized
path. -/
def CSVParser.read_chunk (p : CSVParser) (start_row num_rows : Nat) :
    Except String (List Row) :=
  if start_row = 0 ∧ p.has_headers then
    takeRows (headersOf p) (some (headersOf p).length) num_rows
      ((recLines p.content).tail)
  else read_chunk_optimized p start_row num_rows

/-! Concrete input files used to evaluate the accessor. -/

/-- Block of consecutive terminator-ended data rows: the rows whose
content is `g s` through `g (s + c - 1)`, each followed by the record
terminator.  Structuring the large files this way lets their deep
byte-level facts (lengths, seeks to large offsets, record lists) be proven
by induction instead of by deep evaluation. -/
def rowBlock (g : Nat → List Byte) : Nat → Nat → List Byte
  | _, 0 => []
  | s, c + 1 => (g s ++ [nlByte]) ++ rowBlock g (s + 1) c

/-- Content of data row `i` of the uniform file: the three ASCII digits of
`i` modulo 1000. -/
def c1row (i : Nat) : List Byte :=
  [48 + i / 100 % 10, 48 + i / 10 % 10, 48 + i % 10]

/-- Uniform file: a 2-byte header line (the letter h), then 21000 data
rows of exactly 4 bytes each; 84002 bytes in all.  The estimator parses
2 + 100 * 4 = 402 bytes but observes one full 8192-byte read-ahead chunk,
so its bytes-per-row is 8192/100 = 81.92 and the projected position
81.92 * 1002 = 82083.84 lies inside the file: the seek branch runs.  Its
exact safe position is the integer 81920, two bytes into the content of
data row 20479, so sub-byte `f64` rounding cannot move the landing across
a row boundary: the exact-arithmetic model and the program agree on the
rows returned. -/
def c1content : List Byte := [104, 10] ++ rowBlock c1row 0 21000

def p1 : CSVParser := ⟨c1content, 10, true, 84002⟩

/-- Tiny-row content: the single letter x. -/
def c2tiny (_ : Nat) : List Byte := [120]

/-- Fat-row content of fat row `j` (data row `j + 100`): 95 padding bytes
and the four ASCII digits of `j + 100`; 99 bytes of content. -/
def c2fat (j : Nat) : List Byte :=
  List.replicate 95 112 ++ [48 + (j + 100) / 1000 % 10,
    48 + (j + 100) / 100 % 10, 48 + (j + 100) / 10 % 10, 48 + (j + 100) % 10]

/-- Non-uniform file: the 2-byte header line, 100 tiny data rows of 2
bytes, then 901 fat data rows of 100 bytes; 1001 data rows, 90302 bytes.
The estimator samples only the tiny head (2 + 100 * 2 = 202 parsed bytes)
through one full 8192-byte read-ahead chunk, giving
81.92 bytes per row — a bad underestimate of the 100-byte tail — so for
`start_row = 1001` the projected position 82083.84 lies inside the file
and the seek branch runs even though only 1001 data rows exist.  The
exact safe position is the integer 81920, eighteen bytes into the content
of fat row 817, far from any row boundary, so `f64` rounding cannot
change the rows returned. -/
def c2content : List Byte :=
  [104, 10] ++ (rowBlock c2tiny 0 100 ++ rowBlock c2fat 0 901)

def p2 : CSVParser := ⟨c2content, 10, true, 90302⟩

/-- Two-line file `x,y` then `1,2`, configured with the header flag off. -/
def p3 : CSVParser := ⟨[120, 44, 121, 10, 49, 44, 50, 10], 1, false, 8⟩

/-- File `a,b` / `1,2` / `bad` / `3,4` / `5,6` (headers on): the third line
has one field instead of two, so it is a malformed record. -/
def pBad : CSVParser :=
  ⟨[97, 44, 98, 10, 49, 44, 50, 10, 98, 97, 100, 10, 51, 44, 52, 10, 53, 44, 54, 10],
    1, true, 20⟩

/-- File `a,b` / `1,2` / `3,4` / `5,6` (headers on), batch size 2. -/
def pW : CSVParser :=
  ⟨[97, 44, 98, 10, 49, 44, 50, 10, 51, 44, 52, 10, 53, 44, 54, 10], 2, true, 16⟩

/-- Empty file. -/
def pEmpty : CSVParser := ⟨[], 1, true, 0⟩

/-! Helper lemmas. -/

/-- The batch accumulator only ever appends to the already-emitted list. -/
theorem batchGo_acc (bs : Nat) (rs : List Row) :
    ∀ acc cur, batchGo bs rs acc cur = acc ++ batchGo bs rs [] cur := by
  induction rs with
  | nil =>
    intro acc cur
    by_cases h : cur.isEmpty <;> simp [batchGo, h]
  | cons r rs ih =>
    intro acc cur
    by_cases h : bs ≤ (cur ++ [r]).length
    · simp only [batchGo, if_pos h]
      rw [ih (acc ++ [cur ++ [r]]), ih ([] ++ [cur ++ [r]])]
      simp
    · simp only [batchGo, if_neg h]
      exact ih acc (cur ++ [r])

/-- Flattening the emitted batches recovers exactly the rows fed in. -/
theorem batchGo_flatten (bs : Nat) (rs : List Row) :
    ∀ acc cur, (batchGo bs rs acc cur).flatten = acc.flatten ++ cur ++ rs := by
  induction rs with
  | nil =>
    intro acc cur
    by_cases h : cur.isEmpty
    · simp_all [batchGo, List.isEmpty_iff]
    · simp [batchGo, h]
  | cons r rs ih =>
    intro acc cur
    by_cases h : bs ≤ (cur ++ [r]).length
    · simp only [batchGo, if_pos h]
      rw [ih]
      simp
    · simp only [batchGo, if_neg h]
      rw [ih]
      simp

theorem batchesOf_flatten (bs : Nat) (rs : List Row) :
    (batchesOf bs rs).flatten = rs := by
  simpa using batchGo_flatten bs rs [] []

/-- Every batch the loop emits is nonempty and holds at most `bs` rows. -/
theorem batchGo_mem (bs : Nat) (hbs : 0 < bs) (rs : List Row) :
    ∀ cur b, cur.length < bs → b ∈ batchGo bs rs [] cur →
      0 < b.length ∧ b.length ≤ bs := by
  induction rs with
  | nil =>
    intro cur b hcur hb
    by_cases h : cur.isEmpty
    · simp [batchGo, h] at hb
    · simp [batchGo, h] at hb
      subst hb
      exact ⟨by simpa [List.isEmpty_iff, List.length_pos] using h, Nat.le_of_lt hcur⟩
  | cons r rs ih =>
    intro cur b hcur hb
    by_cases h : bs ≤ (cur ++ [r]).length
    · rw [batchGo, if_pos h, batchGo_acc] at hb
      rcases List.mem_append.mp hb with hb | hb
      · have hlen : (cur ++ [r]).length = bs := by
          simp only [List.length_append, List.length_singleton] at h ⊢
          omega
        simp at hb
        subst hb
        exact ⟨by rw [hlen]; exact hbs, Nat.le_of_eq hlen⟩
      · exact ih [] b hbs hb
    · rw [batchGo, if_neg h] at hb
      refine ih (cur ++ [r]) b ?_ hb
      simp only [List.length_append, List.length_singleton] at h ⊢
      omega

/-- Every batch except possibly the last holds exactly `bs` rows. -/
theorem batchGo_dropLast (bs : Nat) (rs : List Row) :
    ∀ cur b, cur.length < bs → b ∈ (batchGo bs rs [] cur).dropLast →
      b.length = bs := by
  induction rs with
  | nil =>
    intro cur b hcur hb
    by_cases h : cur.isEmpty <;> simp [batchGo, h] at hb
  | cons r rs ih =>
    intro cur b hcur hb
    by_cases h : bs ≤ (cur ++ [r]).length
    · have hlen : (cur ++ [r]).length = bs := by
        simp only [List.length_append, List.length_singleton] at h ⊢
        omega
      have hbs0 : 0 < bs := by
        simp only [List.length_append, List.length_singleton] at hlen
        omega
      rw [batchGo, if_pos h, batchGo_acc] at hb
      simp only [List.nil_append] at hb
      rcases hrec : batchGo bs rs [] [] with _ | ⟨x, xs⟩
      · rw [hrec] at hb
        simp at hb
      · rw [hrec, List.singleton_append, List.dropLast_cons₂] at hb
        rcases List.mem_cons.mp hb with hb | hb
        · subst hb
          exact hlen
        · exact ih [] b hbs0 (by rw [hrec]; exact hb)
    · rw [batchGo, if_neg h] at hb
      refine ih (cur ++ [r]) b ?_ hb
      simp only [List.length_append, List.length_singleton] at h ⊢
      omega

/-- The bounded reading loop succeeds exactly when every record of the
requested window parses, and then returns the window's rows; the first
malformed record inside the window aborts with the format error. -/
theorem takeRows_eq (hs : List (List Byte)) (e : Nat) :
    ∀ n ls, takeRows hs (some e) n ls =
      if (ls.take n).all (fun l => (fieldsOf l).length == e) then
        .ok ((ls.take n).map (fun l => mkRow hs (fieldsOf l)))
      else .error "Failed to read CSV record" := by
  intro n
  induction n with
  | zero => intro ls; simp [takeRows]
  | succ n ih =>
    intro ls
    cases ls with
    | nil => simp [takeRows]
    | cons l ls =>
      by_cases h : (fieldsOf l).length = e
      · rw [takeRows, if_pos h, ih ls]
        by_cases hall : (ls.take n).all (fun l => (fieldsOf l).length == e)
        · simp [hall, h]
        · simp [hall, h]
      · rw [takeRows, if_neg h]
        have : ((l :: ls).take (n + 1)).all (fun l => (fieldsOf l).length == e) = false := by
          simp [h]
        rw [this]
        simp

/-- The skip loop hits end of input exactly when fewer records than
requested remain. -/
theorem skipGo_eq_none {s : Nat} : ∀ {ls : List (List Byte)},
    skipGo s ls = none ↔ ls.length < s := by
  induction s with
  | zero => intro ls; simp [skipGo]
  | succ s ih =>
    intro ls
    cases ls with
    | nil => simp [skipGo]
    | cons l ls => simpa [skipGo, Nat.succ_lt_succ_iff] using ih

/-- When the skip loop completes, the remaining records are the suffix
after the discarded prefix, regardless of their well-formedness. -/
theorem skipGo_eq_some {s : Nat} : ∀ {ls r : List (List Byte)},
    skipGo s ls = some r → r = ls.drop s := by
  induction s with
  | zero => intro ls r h; simpa [skipGo] using h.symm
  | succ s ih =>
    intro ls r h
    cases ls with
    | nil => simp [skipGo] at h
    | cons l ls => exact ih h

/-- The counting loop counts exactly the records whose field count matches
the expected one. -/
theorem countLoop_eq (e : Nat) :
    ∀ ls, countLoop e ls = (ls.filter (fun l => (fieldsOf l).length == e)).length := by
  intro ls
  induction ls with
  | nil => simp [countLoop]
  | cons l ls ih =>
    by_cases h : (fieldsOf l).length = e
    · simp [countLoop, h, ih, List.filter_cons]
      omega
    · simp [countLoop, h, ih, List.filter_cons]

/-- A yielded record always consumes at least one byte. -/
theorem nextRecord_pos {bs r : List Byte} {cn : Nat} {rest : List Byte}
    (h : nextRecord bs = some (r, cn, rest)) : 0 < cn := by
  rcases hbs2 : bs.dropWhile (· == nlByte) with - | ⟨a, t2⟩
  · simp only [nextRecord, hbs2, List.isEmpty_nil, if_true] at h
    simp at h
  · have hlen : 0 < (bs.dropWhile (· == nlByte)).length := by
      rw [hbs2]; simp
    have ha := List.dropWhile_get_zero_not (p := (· == nlByte)) bs hlen
    simp [hbs2] at ha
    have ha2 : (a != nlByte) = true := by
      simpa using ha
    simp only [nextRecord, hbs2, List.isEmpty_cons, if_false, List.takeWhile_cons, ha2,
      if_true, List.length_cons, Option.some.injEq, Prod.mk.injEq] at h
    simp only [Bool.false_eq_true, if_false, Option.some.injEq, Prod.mk.injEq] at h
    omega

/-- A successful sampling pass that read at least one record consumed at
least one byte. -/
theorem sampleGo_pos (k : Nat) (exp : Option Nat) (bs : List Byte) (c cn : Nat)
    (h : sampleGo k exp bs = .ok (c, cn)) (hc : 0 < c) : 0 < cn := by
  cases k with
  | zero =>
    simp only [sampleGo, Except.ok.injEq, Prod.mk.injEq] at h
    omega
  | succ k =>
    rw [sampleGo] at h
    split at h
    · simp only [Except.ok.injEq, Prod.mk.injEq] at h
      omega
    · rename_i r cnr rest heq
      have hpos := nextRecord_pos heq
      dsimp only [] at h
      split at h
      · split at h
        · split at h
          · simp only [Except.ok.injEq, Prod.mk.injEq] at h
            omega
          · simp at h
        · simp at h
      · split at h
        · simp only [Except.ok.injEq, Prod.mk.injEq] at h
          omega
        · simp at h

/-- The forced-counter length accumulator computes the list length. -/
theorem lenGo_eq : ∀ (l : List α) (n : Nat), lenGo n l = n + l.length := by
  intro l
  induction l with
  | nil =>
    intro n
    cases n <;> simp [lenGo]
  | cons a t ih =>
    intro n
    cases n with
    | zero =>
      rw [show lenGo 0 (a :: t) = lenGo 1 t from rfl, ih 1, List.length_cons]
      omega
    | succ m =>
      rw [show lenGo (m + 1) (a :: t) = lenGo (m + 2) t from rfl, ih (m + 2),
        List.length_cons]
      omega

theorem listLen_eq (l : List α) : listLen l = l.length := by
  simp [listLen, lenGo_eq]

/-- A yielded record's parse consumption accounts exactly for the bytes
between the old and the new position of the stream. -/
theorem nextRecord_consumed {bs r : List Byte} {cn : Nat} {rest : List Byte}
    (h : nextRecord bs = some (r, cn, rest)) : cn + rest.length = bs.length := by
  rcases hbs2 : bs.dropWhile (· == nlByte) with - | ⟨a, t2⟩
  · simp only [nextRecord, hbs2, List.isEmpty_nil, if_true] at h
    simp at h
  · simp only [nextRecord, hbs2, List.isEmpty_cons, Bool.false_eq_true, if_false,
      Option.some.injEq, Prod.mk.injEq] at h
    rcases h with ⟨-, hcn, hrest⟩
    have hsplit1 : (bs.takeWhile (· == nlByte)).length + (a :: t2).length = bs.length := by
      conv_rhs => rw [← List.takeWhile_append_dropWhile (p := (· == nlByte)) (l := bs)]
      rw [hbs2, List.length_append]
    have hsplit2 : ((a :: t2).takeWhile (· != nlByte)).length +
        ((a :: t2).dropWhile (· != nlByte)).length = (a :: t2).length := by
      rw [← List.length_append, List.takeWhile_append_dropWhile]
    rcases hrest0 : (a :: t2).dropWhile (· != nlByte) with - | ⟨x, xs⟩
    · rw [hrest0] at hcn hrest hsplit2
      simp only [List.isEmpty_nil, if_true, List.drop_nil] at hcn hrest
      subst hrest
      simp only [List.length_nil, List.length_cons] at hsplit1 hsplit2 ⊢
      omega
    · rw [hrest0] at hcn hrest hsplit2
      simp only [List.isEmpty_cons, Bool.false_eq_true, if_false] at hcn
      have hxs : xs = rest := by
        simpa using hrest
      subst hxs
      simp only [List.length_cons] at hsplit1 hsplit2 ⊢
      omega

/-- A successful sampling pass never parses more bytes than the stream
holds. -/
theorem sampleGo_le :
    ∀ (k : Nat) (exp : Option Nat) (bs : List Byte) (c cn : Nat),
      sampleGo k exp bs = .ok (c, cn) → cn ≤ bs.length := by
  intro k
  induction k with
  | zero =>
    intro exp bs c cn h
    simp only [sampleGo, Except.ok.injEq, Prod.mk.injEq] at h
    omega
  | succ k ih =>
    intro exp bs c cn h
    rw [sampleGo] at h
    split at h
    · simp only [Except.ok.injEq, Prod.mk.injEq] at h
      omega
    · rename_i r cnr rest heq
      have hcons := nextRecord_consumed heq
      dsimp only [] at h
      split at h
      · split at h
        · split at h
          · rename_i c2 cn2 hrec
            simp only [Except.ok.injEq, Prod.mk.injEq] at h
            have := ih _ _ _ _ hrec
            omega
          · simp at h
        · simp at h
      · split at h
        · rename_i c2 cn2 hrec
          simp only [Except.ok.injEq, Prod.mk.injEq] at h
          have := ih _ _ _ _ hrec
          omega
        · simp at h

/-- The estimator's start step (header skip) never parses more bytes than
the file holds: parsed so far plus the remaining stream is bounded by the
content length. -/
theorem startState_le (hh : Bool) (c : List Byte) :
    (startState hh c).2.1 + (startState hh c).1.length ≤ c.length := by
  cases hh with
  | false => simp [startState]
  | true =>
    rcases hnr : nextRecord c with - | ⟨r, cn, rest⟩
    · simp [startState, hnr]
    · have := nextRecord_consumed hnr
      simp [startState, hnr]
      omega

/-- Splitting into records steps over one terminator-ended, newline-free,
nonempty line at a time. -/
theorem recLines_cons_line (xs rest : List Byte) (hne : xs ≠ [])
    (hnl : nlByte ∉ xs) :
    recLines (xs ++ nlByte :: rest) = xs :: recLines rest := by
  unfold recLines
  have h1 : List.splitOn nlByte (xs ++ nlByte :: rest) =
      xs :: List.splitOn nlByte rest :=
    List.splitOnP_first (· == nlByte) xs
      (fun x hx => by
        simp only [beq_iff_eq]
        rintro rfl
        exact hnl hx) nlByte (by simp) rest
  rw [h1, List.filter_cons]
  simp [hne]

/-- The records of a block of terminator-ended rows followed by anything:
the row contents, then the records of the remainder. -/
theorem recLines_rowBlock (g : Nat → List Byte) (hne : ∀ i, g i ≠ [])
    (hnl : ∀ i, nlByte ∉ g i) :
    ∀ (c s : Nat) (rest : List Byte),
      recLines (rowBlock g s c ++ rest) = (List.range' s c).map g ++ recLines rest := by
  intro c
  induction c with
  | zero =>
    intro s rest
    simp [rowBlock]
  | succ c ih =>
    intro s rest
    have hstep : rowBlock g s (c + 1) ++ rest =
        g s ++ (nlByte :: (rowBlock g (s + 1) c ++ rest)) := by
      show ((g s ++ [nlByte]) ++ rowBlock g (s + 1) c) ++ rest = _
      simp
    rw [hstep, recLines_cons_line _ _ (hne s) (hnl s), ih (s + 1) rest,
      List.range'_succ]
    simp

/-- Byte length of a block of `c` rows of uniform content length `r`. -/
theorem rowBlock_length (g : Nat → List Byte) (r : Nat)
    (hlen : ∀ i, (g i).length = r) :
    ∀ c s, (rowBlock g s c).length = c * (r + 1) := by
  intro c
  induction c with
  | zero =>
    intro s
    simp [rowBlock]
  | succ c ih =>
    intro s
    simp [rowBlock, ih, hlen]
    ring

/-- Dropping a whole number of uniform rows from a block lands exactly at
a row boundary. -/
theorem rowBlock_drop (g : Nat → List Byte) (r : Nat)
    (hlen : ∀ i, (g i).length = r) :
    ∀ (k c s : Nat), k ≤ c →
      (rowBlock g s c).drop (k * (r + 1)) = rowBlock g (s + k) (c - k) := by
  intro k
  induction k with
  | zero =>
    intro c s h
    simp
  | succ k ih =>
    intro c s h
    cases c with
    | zero => omega
    | succ c =>
      rw [show rowBlock g s (c + 1) = (g s ++ [nlByte]) ++ rowBlock g (s + 1) c from rfl]
      have hl : (g s ++ [nlByte]).length = r + 1 := by
        simp [hlen s]
      rw [show (k + 1) * (r + 1) = (r + 1) + k * (r + 1) by ring, ← List.drop_drop,
        List.drop_left' hl, ih c (s + 1) (by omega),
        show s + 1 + k = s + (k + 1) by omega, Nat.succ_sub_succ]

/-! Claim theorems. -/

/-- C8: for every cached file byte length, the full-read strategy selector
chooses the whole-file strategy exactly when the length is nonzero and
strictly under 100 MiB (104857600 bytes), and the streaming strategy when
the length is at or above the threshold or zero, and `read` dispatches on
exactly this selector. -/
theorem c8_strategy_threshold (n : Nat) :
    (usesWholeFile n = true ↔ 0 < n ∧ n < 104857600) ∧
    (usesWholeFile n = false ↔ 104857600 ≤ n ∨ n = 0) ∧
    (∀ p : CSVParser, CSVParser.read p =
      if usesWholeFile p.file_size then read_optimized p else read_streaming p) := by
  refine ⟨?_, ?_, fun p => rfl⟩
  · simp only [usesWholeFile, Bool.and_eq_true, decide_eq_true_eq]
  · simp only [usesWholeFile, Bool.and_eq_false_iff, decide_eq_false_iff_not]
    omega

/-- C5: CountRows positions past the header record when the flag is set,
then advances the record sequence to completion and returns, without ever
aborting, the number of successfully parsed data records — every malformed
record (field-count mismatch against the first record) is silently
skipped. -/
theorem c5_count_rows_counts_parsed_records (p : CSVParser) :
    count_rows p =
      .ok (((dataLines p).filter
        (fun l => (fieldsOf l).length == (headersOf p).length)).length) := by
  simp [count_rows, countLoop_eq]

/-- C4: with a positive batch size, ReadAll succeeds under both strategies
with identical output; the total number of rows across batches equals the
number of parsed records, every batch except possibly the last holds
exactly `batch_size` rows, and every emitted batch (the final partial one
included) is nonempty and holds at most `batch_size` rows. -/
theorem c4_read_batching (p : CSVParser) (hbs : 0 < p.batch_size) :
    CSVParser.read p =
      some (batchesOf p.batch_size (buildRows (headersOf p) (dataLines p))) ∧
    read_optimized p =
      some (batchesOf p.batch_size (buildRows (headersOf p) (dataLines p))) ∧
    read_streaming p =
      some (batchesOf p.batch_size (buildRows (headersOf p) (dataLines p))) ∧
    (batchesOf p.batch_size (buildRows (headersOf p) (dataLines p))).flatten.length =
      (dataLines p).length ∧
    (∀ b ∈ (batchesOf p.batch_size (buildRows (headersOf p) (dataLines p))).dropLast,
      b.length = p.batch_size) ∧
    (∀ b ∈ batchesOf p.batch_size (buildRows (headersOf p) (dataLines p)),
      0 < b.length ∧ b.length ≤ p.batch_size) := by
  have hbs0 : p.batch_size ≠ 0 := Nat.pos_iff_ne_zero.mp hbs
  have hbs100 : p.batch_size * 100 ≠ 0 := by
    simpa using hbs0
  have hopt : read_optimized p =
      some (batchesOf p.batch_size (buildRows (headersOf p) (dataLines p))) := by
    simp [read_optimized, checkedDiv, hbs0]
  have hstr : read_streaming p =
      some (batchesOf p.batch_size (buildRows (headersOf p) (dataLines p))) := by
    simp [read_streaming, checkedDiv, hbs100]
  refine ⟨?_, hopt, hstr, ?_, ?_, ?_⟩
  · unfold CSVParser.read
    split
    · exact hopt
    · exact hstr
  · rw [batchesOf_flatten]
    simp [buildRows]
  · intro b hb
    exact batchGo_dropLast p.batch_size _ [] b hbs hb
  · intro b hb
    exact batchGo_mem p.batch_size hbs _ [] b hbs hb

/-- C7: every successful run of the row-density estimator yields a
positive estimate; it equals the exact default 100 when zero sample
records were read, and the consumed byte span divided by the sample count
otherwise. -/
theorem c7_estimator_positive (p : CSVParser) (q : ℚ)
    (h : estimate_bytes_per_row p = .ok q) :
    0 < q ∧ ∀ cnt consumed, sampleOutcome p = .ok (cnt, consumed) →
      (cnt = 0 → q = 100) ∧
      (0 < cnt → q = (consumed : ℚ) / (cnt : ℚ)) := by
  unfold estimate_bytes_per_row at h
  rcases hso : sampleOutcome p with e | ⟨cnt, consumed⟩
  · rw [hso] at h
    exact absurd h (by simp)
  · rw [hso] at h
    dsimp only [] at h
    by_cases hcnt : 0 < cnt
    · rw [if_pos hcnt] at h
      have hq : q = (consumed : ℚ) / (cnt : ℚ) := by
        simpa using h.symm
      have hconsumed : 0 < consumed := by
        rcases hss : startState p.has_headers p.content with ⟨bs0, cn0, exp⟩
        have hstart := startState_le p.has_headers p.content
        rw [hss] at hstart
        simp only [] at hstart
        simp only [sampleOutcome, hss] at hso
        split at hso
        · rename_i c cn heq
          simp only [Except.ok.injEq, Prod.mk.injEq] at hso
          have hcnpos : 0 < cn := sampleGo_pos 100 exp bs0 c cn heq (by omega)
          have hcnle : cn ≤ bs0.length := sampleGo_le 100 exp bs0 c cn heq
          rw [← hso.2]
          simp only [pulledBytes, csvBufSize, listLen_eq, lt_min_iff]
          constructor <;> omega
        · exact absurd hso (by simp)
      refine ⟨?_, ?_⟩
      · rw [hq]
        exact div_pos (by exact_mod_cast hconsumed) (by exact_mod_cast hcnt)
      · intro cnt2 consumed2 hso2
        simp only [Except.ok.injEq, Prod.mk.injEq] at hso2
        constructor
        · intro h0
          omega
        · intro _
          rw [hq, hso2.1, hso2.2]
    · rw [if_neg hcnt] at h
      have hq : q = 100 := by
        simpa using h.symm
      refine ⟨by rw [hq]; norm_num, ?_⟩
      intro cnt2 consumed2 hso2
      simp only [Except.ok.injEq, Prod.mk.injEq] at hso2
      exact ⟨fun _ => hq, fun hpos => absurd (hso2.1 ▸ hpos) hcnt⟩

/-- C9: with headers enabled, a successful ReadChunk(0, N) returns exactly
the first N rows of the flattened batches of a successful ReadAll, for N
at most the number of data records, whatever reading strategy ReadAll
used. -/
theorem c9_chunk_zero_matches_read (p : CSVParser) (n : Nat) (c : List Row)
    (B : List (List Row)) (hh : p.has_headers = true)
    (_hn : n ≤ (dataLines p).length) (hc : p.read_chunk 0 n = .ok c)
    (hB : p.read = some B) : c = B.flatten.take n := by
  have hBval : B = batchesOf p.batch_size (buildRows (headersOf p) (dataLines p)) := by
    unfold CSVParser.read at hB
    split at hB
    · unfold read_optimized at hB
      rcases hcd : checkedDiv (p.content.length / 50) p.batch_size with - | v <;>
        rw [hcd] at hB
      · exact absurd hB (by simp)
      · simpa using hB.symm
    · unfold read_streaming at hB
      rcases hcd : checkedDiv p.file_size (p.batch_size * 100) with - | v <;>
        rw [hcd] at hB
      · exact absurd hB (by simp)
      · simpa using hB.symm
  subst hBval
  rw [batchesOf_flatten]
  unfold CSVParser.read_chunk at hc
  rw [if_pos ⟨rfl, hh⟩, takeRows_eq] at hc
  split at hc
  · have hcval := Except.ok.inj hc
    simp [← hcval, buildRows, dataLines, hh, List.map_take]
  · exact absurd hc (by simp)

/-- C3 (amended): with the header flag off, the first record is yielded as
ordinary data — every record of the file produces a Row — but the Rows are
not addressed positionally: each Row is keyed by the field texts of the
first record, both in ReadAll and in ReadChunk. -/
theorem c3_headerless_rows_keyed_by_first_record (p : CSVParser) (n : Nat)
    (c : List Row) (B : List (List Row)) (hh : p.has_headers = false) :
    (read_optimized p = some B →
      B.flatten = buildRows (fieldsOf ((recLines p.content).headD []))
        (recLines p.content)) ∧
    (p.read_chunk 0 n = .ok c →
      c = buildRows (fieldsOf ((recLines p.content).headD []))
        ((recLines p.content).take n)) := by
  constructor
  · intro hB
    unfold read_optimized at hB
    rcases hcd : checkedDiv (p.content.length / 50) p.batch_size with - | v <;>
      rw [hcd] at hB
    · exact absurd hB (by simp)
    · have hBval : B = batchesOf p.batch_size (buildRows (headersOf p) (dataLines p)) := by
        simpa using hB.symm
      simp [hBval, batchesOf_flatten, dataLines, hh, headersOf]
  · intro hc
    unfold CSVParser.read_chunk at hc
    rw [if_neg (by simp [hh])] at hc
    unfold read_chunk_optimized at hc
    rw [if_neg (by omega)] at hc
    simp only [read_chunk_fallback, skipGo] at hc
    rw [takeRows_eq] at hc
    split at hc
    · have hcval := Except.ok.inj hc
      simp [← hcval, buildRows, dataLines, hh, headersOf, List.map_take]
    · exact absurd hc (by simp)

/-- C6 (amended): on the fallback linear path, a malformed record inside
the up-to-`num_rows` window after the discarded prefix aborts the whole
call with a format error and no partial chunk; the call succeeds exactly
when every record of that window parses — malformed records among the
`start_row` discarded ones are silently consumed and never abort.  For
`start_row ≤ 1000` the optimized entry point always takes this path. -/
theorem c6_fallback_aborts_only_in_window (p : CSVParser) (s n : Nat) :
    (read_chunk_fallback p s n =
      if (((dataLines p).drop s).take n).all
          (fun l => (fieldsOf l).length == (headersOf p).length) then
        .ok (buildRows (headersOf p) (((dataLines p).drop s).take n))
      else .error "Failed to read CSV record") ∧
    (s ≤ 1000 → read_chunk_optimized p s n = read_chunk_fallback p s n) := by
  constructor
  · unfold read_chunk_fallback
    rcases hsk : skipGo s (dataLines p) with - | rest
    · have hlt := skipGo_eq_none.mp hsk
      have hdrop : (dataLines p).drop s = [] :=
        List.drop_eq_nil_of_le (Nat.le_of_lt hlt)
      simp [hdrop, buildRows]
    · have hrest := skipGo_eq_some hsk
      subst hrest
      dsimp only []
      rw [takeRows_eq]
      simp [buildRows]
  · intro hs
    unfold read_chunk_optimized
    rw [if_neg (by omega)]

set_option maxRecDepth 400000 in
/-- C1: on a perfectly uniform large file (2-byte header line, 21000
four-byte data rows, 84002 bytes), the estimator observes one full
read-ahead chunk (8192 bytes for its 100 samples, 81.92 bytes per row),
projects 82083.84 — inside the file — and the seek branch runs; it lands
on the row boundary at byte 81922 and reads from there without discarding
the rows between the landing point and the requested start row, so
ReadChunk(1001, 2) returns data rows 20480 and 20481 (field texts `480`
and `481`), while the Case-C fallback linear method returns the requested
rows 1001 and 1002 (field texts `001` and `002`): the seek optimization
changes the result, not just the cost. -/
theorem c1_seek_path_differs_from_fallback :
    read_chunk_fallback p1 1001 2 =
      .ok [[([104], [48, 48, 49])], [([104], [48, 48, 50])]] ∧
    read_chunk_optimized p1 1001 2 =
      .ok [[([104], [52, 56, 48])], [([104], [52, 56, 49])]] ∧
    read_chunk_optimized p1 1001 2 ≠ read_chunk_fallback p1 1001 2 := by
  have hfb : read_chunk_fallback p1 1001 2 =
      .ok [[([104], [48, 48, 49])], [([104], [48, 48, 50])]] := by
    decide
  have hlen1 : listLen c1content = 84002 := by
    rw [listLen_eq]
    show ([104, 10] ++ rowBlock c1row 0 21000).length = 84002
    rw [List.length_append, rowBlock_length c1row 3 (fun i => rfl) 21000 0]
    decide
  have hss : startState p1.has_headers p1.content =
      (rowBlock c1row 0 21000, 2, some 1) := by
    rfl
  have hsg : sampleGo 100 (some 1) (rowBlock c1row 0 21000) = .ok (100, 400) := by
    decide
  have hso : sampleOutcome p1 = .ok (100, 8192) := by
    unfold sampleOutcome
    rw [hss]
    dsimp only []
    rw [hsg]
    dsimp only []
    rw [show p1.content = c1content from rfl, hlen1]
    decide
  have hdrop : c1content.drop 81920 = [57, 10] ++ rowBlock c1row 20480 520 := by
    show ([104, 10] ++ rowBlock c1row 0 21000).drop 81920 = _
    rw [show (81920 : Nat) = 2 + 81918 from rfl, ← List.drop_drop,
      List.drop_left' (show ([104, 10] : List Byte).length = 2 from rfl),
      show (81918 : Nat) = 81916 + 2 from rfl, ← List.drop_drop,
      show (81916 : Nat) = 20479 * (3 + 1) from rfl,
      rowBlock_drop c1row 3 (fun i => rfl) 20479 21000 0 (by norm_num),
      show (0 : Nat) + 20479 = 20479 from rfl,
      show (21000 : Nat) - 20479 = 521 from rfl,
      show rowBlock c1row 20479 521 =
        (c1row 20479 ++ [nlByte]) ++ rowBlock c1row 20480 520 from rfl,
      show c1row 20479 ++ [nlByte] = [52, 55] ++ [57, 10] from by decide,
      List.append_assoc,
      List.drop_left' (show ([52, 55] : List Byte).length = 2 from rfl)]
  have hseek : read_chunk_optimized p1 1001 2 =
      .ok [[([104], [52, 56, 48])], [([104], [52, 56, 49])]] := by
    unfold read_chunk_optimized
    rw [if_pos (by decide : 1000 < 1001 ∧ 0 < p1.file_size), hso]
    dsimp only []
    simp only [Nat.reduceEqDiff, if_false]
    rw [if_pos (show (0 : Nat) < 8192 from by decide),
      if_pos (show (8192 * if p1.has_headers = true then 1001 + 1 else 1001) <
        p1.file_size * 100 from by decide)]
    unfold seekRead
    dsimp only []
    rw [show (((8192 * if p1.has_headers = true then 1001 + 1 else 1001) - 2 * 8192) / 100
        : Nat) = 81920 from by decide,
      show p1.content = c1content from rfl, hdrop]
    decide
  exact ⟨hfb, hseek, by rw [hseek, hfb]; decide⟩

set_option maxRecDepth 400000 in
/-- C2: on a 90302-byte file holding only 1001 data rows (100 tiny rows
then 901 fat rows of 100 bytes), the estimator samples the tiny head
through one full 8192-byte read-ahead chunk (81.92 bytes per row) and
badly underestimates the fat tail, so for ReadChunk(1001, 2) — a start row
at or beyond the total row count — the projected position 82083.84 still
lies inside the file: the seek branch runs and returns two rows (data rows
918 and 919) instead of the empty sequence the claim requires. -/
theorem c2_out_of_bounds_chunk_nonempty :
    (dataLines p2).length = 1001 ∧
    read_chunk_optimized p2 1001 2 =
      .ok [[([104], List.replicate 95 112 ++ [48, 57, 49, 56])],
        [([104], List.replicate 95 112 ++ [48, 57, 49, 57])]] := by
  have hneF : ∀ j, c2fat j ≠ [] := by
    intro j
    simp [c2fat]
  have hnlF : ∀ j, nlByte ∉ c2fat j := by
    intro j
    have h10 : ∀ d : Nat, ¬ (10 : Nat) = 48 + d % 10 := by
      intro d
      omega
    simp [c2fat, nlByte, List.mem_replicate]
    exact ⟨h10 _, h10 _, h10 _, h10 _⟩
  have hlenF : ∀ j, (c2fat j).length = 99 := by
    intro j
    simp [c2fat]
  have hrec : recLines c2content =
      [104] :: ((List.range' 0 100).map c2tiny ++ (List.range' 0 901).map c2fat) := by
    rw [show c2content =
      [104] ++ nlByte :: (rowBlock c2tiny 0 100 ++ rowBlock c2fat 0 901) from rfl]
    rw [recLines_cons_line [104] _ (by decide) (by decide)]
    rw [recLines_rowBlock c2tiny (fun i => by simp [c2tiny])
      (fun i => by simp [c2tiny, nlByte]) 100 0 (rowBlock c2fat 0 901)]
    have hF : recLines (rowBlock c2fat 0 901) = (List.range' 0 901).map c2fat := by
      have h0 : recLines ([] : List Byte) = [] := by decide
      have := recLines_rowBlock c2fat hneF hnlF 901 0 []
      simpa [h0] using this
    rw [hF]
  have hcount : (dataLines p2).length = 1001 := by
    rw [show dataLines p2 = (recLines c2content).tail from rfl, hrec]
    simp
  have hlen2 : listLen c2content = 90302 := by
    rw [listLen_eq]
    show ([104, 10] ++ (rowBlock c2tiny 0 100 ++ rowBlock c2fat 0 901)).length = 90302
    rw [List.length_append, List.length_append,
      rowBlock_length c2tiny 1 (fun i => rfl) 100 0,
      rowBlock_length c2fat 99 hlenF 901 0]
    decide
  have hss : startState p2.has_headers p2.content =
      (rowBlock c2tiny 0 100 ++ rowBlock c2fat 0 901, 2, some 1) := by
    rfl
  have hsg : sampleGo 100 (some 1) (rowBlock c2tiny 0 100 ++ rowBlock c2fat 0 901) =
      .ok (100, 200) := by
    decide
  have hso : sampleOutcome p2 = .ok (100, 8192) := by
    unfold sampleOutcome
    rw [hss]
    dsimp only []
    rw [hsg]
    dsimp only []
    rw [show p2.content = c2content from rfl, hlen2]
    decide
  have hdrop : c2content.drop 81920 =
      List.replicate 77 112 ++ ([48, 57, 49, 55] ++ ([10] ++ rowBlock c2fat 818 83)) := by
    show ([104, 10] ++ (rowBlock c2tiny 0 100 ++ rowBlock c2fat 0 901)).drop 81920 = _
    rw [show (81920 : Nat) = 2 + 81918 from rfl, ← List.drop_drop,
      List.drop_left' (show ([104, 10] : List Byte).length = 2 from rfl),
      show (81918 : Nat) = 200 + 81718 from rfl, ← List.drop_drop,
      List.drop_left' (show (rowBlock c2tiny 0 100).length = 200 from by
        rw [rowBlock_length c2tiny 1 (fun i => rfl) 100 0]),
      show (81718 : Nat) = 81700 + 18 from rfl, ← List.drop_drop,
      show (81700 : Nat) = 817 * (99 + 1) from rfl,
      rowBlock_drop c2fat 99 hlenF 817 901 0 (by norm_num),
      show (0 : Nat) + 817 = 817 from rfl,
      show (901 : Nat) - 817 = 84 from rfl,
      show rowBlock c2fat 817 84 =
        (c2fat 817 ++ [nlByte]) ++ rowBlock c2fat 818 83 from rfl,
      show c2fat 817 ++ [nlByte] =
        (List.replicate 18 112 ++ List.replicate 77 112) ++
          ([48, 57, 49, 55] ++ [10]) from by decide,
      List.append_assoc, List.append_assoc,
      List.drop_left' (show (List.replicate 18 (112 : Byte)).length = 18 from by simp),
      List.append_assoc]
  have hseek : read_chunk_optimized p2 1001 2 =
      .ok [[([104], List.replicate 95 112 ++ [48, 57, 49, 56])],
        [([104], List.replicate 95 112 ++ [48, 57, 49, 57])]] := by
    unfold read_chunk_optimized
    rw [if_pos (by decide : 1000 < 1001 ∧ 0 < p2.file_size), hso]
    dsimp only []
    simp only [Nat.reduceEqDiff, if_false]
    rw [if_pos (show (0 : Nat) < 8192 from by decide),
      if_pos (show (8192 * if p2.has_headers = true then 1001 + 1 else 1001) <
        p2.file_size * 100 from by decide)]
    unfold seekRead
    dsimp only []
    rw [show (((8192 * if p2.has_headers = true then 1001 + 1 else 1001) - 2 * 8192) / 100
        : Nat) = 81920 from by decide,
      show p2.content = c2content from rfl, hdrop]
    decide
  exact ⟨hcount, hseek⟩

/-- C3 (counterexample): on the file `x,y` / `1,2` read with the header
flag off, both ReadAll and ReadChunk(0, 2) key every Row by the field
texts `x` and `y` of the first record — the first record is data, yet its
text names the fields of the other Rows, so fields are not addressed
positionally. -/
theorem c3_first_record_text_used_as_keys :
    CSVParser.read p3 =
      some [[[([120], [120]), ([121], [121])]], [[([120], [49]), ([121], [50])]]] ∧
    CSVParser.read_chunk p3 0 2 =
      .ok [[([120], [120]), ([121], [121])], [([120], [49]), ([121], [50])]] :=
  ⟨by decide, by decide⟩

/-- C6 (counterexample): on `a,b` / `1,2` / `bad` / `3,4` / `5,6`, the
record `bad` is malformed (one field against two headers) and lies among
the first `start_row = 2` discarded records, yet the fallback path of
ReadChunk(2, 2) does not abort: it silently consumes the malformed record
and returns the rows `3,4` and `5,6`. -/
theorem c6_skip_phase_swallows_malformed :
    (fieldsOf [98, 97, 100]).length ≠ (headersOf pBad).length ∧
    (dataLines pBad).take 2 = [[49, 44, 50], [98, 97, 100]] ∧
    read_chunk_optimized pBad 2 2 =
      .ok [[([97], [51]), ([98], [52])], [([97], [53]), ([98], [54])]] := by
  decide

/-! Witnesses. -/

/-- Witness for C4 at the file `a,b` / `1,2` / `3,4` / `5,6` with batch
size 2: ReadAll yields a full batch of two rows and a final partial batch
of one row. -/
theorem c4_read_batching_witness :
    0 < pW.batch_size ∧
    CSVParser.read pW =
      some (batchesOf pW.batch_size (buildRows (headersOf pW) (dataLines pW))) ∧
    (batchesOf pW.batch_size (buildRows (headersOf pW) (dataLines pW))).flatten.length =
      (dataLines pW).length :=
  ⟨by decide, (c4_read_batching pW (by decide)).1,
    (c4_read_batching pW (by decide)).2.2.2.1⟩

/-- Witness for C7 on the empty file: zero samples are read and the
estimator returns the positive default 100. -/
theorem c7_estimator_witness :
    estimate_bytes_per_row pEmpty = .ok 100 ∧ (0 : ℚ) < 100 :=
  ⟨by rfl, (c7_estimator_positive pEmpty 100 (by rfl)).1⟩

/-- Witness for C9 at the file `a,b` / `1,2` / `3,4` / `5,6` with batch
size 2: ReadChunk(0, 1) equals the first row of ReadAll's flattened
output. -/
theorem c9_chunk_zero_witness :
    [[([97], [49]), ([98], [50])]] =
      ([[[([97], [49]), ([98], [50])], [([97], [51]), ([98], [52])]],
        [[([97], [53]), ([98], [54])]]] : List (List Row)).flatten.take 1 :=
  c9_chunk_zero_matches_read pW 1 _ _ (by rfl) (by decide) (by decide) (by decide)

/-- Witness for C3 (amended) at the headerless two-line file `x,y` /
`1,2`. -/
theorem c3_headerless_witness :
    ([[[([120], [120]), ([121], [121])]], [[([120], [49]), ([121], [50])]]] :
        List (List Row)).flatten =
      buildRows (fieldsOf ((recLines p3.content).headD [])) (recLines p3.content) ∧
    ([[([120], [120]), ([121], [121])], [([120], [49]), ([121], [50])]] : List Row) =
      buildRows (fieldsOf ((recLines p3.content).headD []))
        ((recLines p3.content).take 2) :=
  ⟨(c3_headerless_rows_keyed_by_first_record p3 2
      [[([120], [120]), ([121], [121])], [([120], [49]), ([121], [50])]]
      [[[([120], [120]), ([121], [121])]], [[([120], [49]), ([121], [50])]]]
      (by rfl)).1 (by decide),
    (c3_headerless_rows_keyed_by_first_record p3 2
      [[([120], [120]), ([121], [121])], [([120], [49]), ([121], [50])]]
      [[[([120], [120]), ([121], [121])]], [[([120], [49]), ([121], [50])]]]
      (by rfl)).2 (by decide)⟩

/-- C10: construction performs no validation of `batch_size` — an accessor
with `batch_size = 0` over an openable file is constructed successfully —
and ReadAll then reaches the unguarded capacity-hint division by
`batch_size` and panics (modelled as `none`) in both the whole-file and
the streaming path, instead of returning a clean error; with
`batch_size > 0` both divisions are safe and both paths return a value. -/
theorem c10_batch_size_zero_panics (content : List Byte) (hh : Option Bool)
    (_hne : content ≠ []) :
    (∃ p, CSVParser.new (some content) 0 hh = .ok p ∧ p.batch_size = 0 ∧
      read_optimized p = none ∧ read_streaming p = none ∧
      CSVParser.read p = none) ∧
    (∀ q : CSVParser, 0 < q.batch_size →
      (read_optimized q).isSome = true ∧ (read_streaming q).isSome = true) := by
  constructor
  · refine ⟨⟨content, 0, hh.getD true, content.length⟩, rfl, rfl, ?_, ?_, ?_⟩
    · simp [read_optimized, checkedDiv]
    · simp [read_streaming, checkedDiv]
    · unfold CSVParser.read
      split <;> simp [read_optimized, read_streaming, checkedDiv]
  · intro q hq
    have hq0 : q.batch_size ≠ 0 := Nat.pos_iff_ne_zero.mp hq
    have hq100 : q.batch_size * 100 ≠ 0 := by
      simpa using hq0
    exact ⟨by simp [read_optimized, checkedDiv, hq0],
      by simp [read_streaming, checkedDiv, hq100]⟩

/-- Witness for C10 on the one-byte file `a` with default header flag. -/
theorem c10_batch_size_zero_witness :
    ([97] : List Byte) ≠ [] ∧
    ((∃ p, CSVParser.new (some [97]) 0 none = .ok p ∧ p.batch_size = 0 ∧
      read_optimized p = none ∧ read_streaming p = none ∧
      CSVParser.read p = none) ∧
    (∀ q : CSVParser, 0 < q.batch_size →
      (read_optimized q).isSome = true ∧ (read_streaming q).isSome = true)) :=
  ⟨by decide, c10_batch_size_zero_panics [97] none (by decide)⟩

/-- Witness for C6 (amended) at the file of `pBad` with two discarded and
two requested rows. -/
theorem c6_fallback_witness :
    read_chunk_fallback pBad 2 2 =
      (if (((dataLines pBad).drop 2).take 2).all
          (fun l => (fieldsOf l).length == (headersOf pBad).length) then
        .ok (buildRows (headersOf pBad) (((dataLines pBad).drop 2).take 2))
      else .error "Failed to read CSV record") ∧
    (2 ≤ 1000 → read_chunk_optimized pBad 2 2 = read_chunk_fallback pBad 2 2) :=
  c6_fallback_aborts_only_in_window pBad 2 2
